import Mathlib

/-!
Shallow embedding of `src/util/algorithm.hpp` (C++ namespace `top1`) and a
verification of its five algorithms: `join_strings`, `generate_sequence`,
`for_each_n`, `indexed_for` and `indexed_for_n`.

Modelling conventions:
* `std::string` values are modelled as `List Char`;
* an iterator range is a Lean list, and an iterator position is identified
  with the suffix of the container that starts at that position, so
  advancing an iterator is taking the tail;
* a caller-supplied visitor is modelled by recording the argument tuples the
  loop would invoke it with, in invocation order;
* the `std::size_t` counters are modelled as `Nat` (no property considered
  here exercises values anywhere near 2^64, so 64-bit wraparound never
  fires and is left out of the embedding);
* dereferencing an iterator past the end of the container (the out-of-bounds
  case that the header leaves as undefined behaviour) is modelled by the
  `Option` value `none`; so is the zero-length instantiation of
  `generate_sequence`, which is ill-formed (the empty pack expansion leaves
  a braced `std::array` construction with no viable class template argument
  deduction), and therefore has no behaviour at all.
-/

namespace top1

/-- One entry of the argument tuple a visitor is invoked with: either the
current element or the current loop index. -/
inductive Arg (α : Type) where
  | elemArg : α → Arg α
  | idxArg : Nat → Arg α
deriving DecidableEq

/-- Embedding of `top1::join_strings` (algorithm.hpp lines 13-23): a fold of
the input sequence into the local `result` string; each step first appends
the separator `js` when `result` is nonempty (the code's "not the first
append" test is `!result.empty()`), then appends the current element. -/
def join_strings (ss : List (List Char)) (js : List Char) : List Char :=
  ss.foldl (fun result s => (if result.isEmpty then result else result ++ js) ++ s) []

/-- One append performed on `result` by `join_strings`: either a copy of the
separator or one input element. -/
inductive Tok where
  | sepTok : Tok
  | elemTok : List Char → Tok
deriving DecidableEq

/-- Instrumented loop of `join_strings`: identical control flow and string
accumulation, but it also logs, for every append performed on `result`,
whether the appended text was the separator or an input element. -/
def join_strings_tok_go (js : List Char) :
    List Char → List Tok → List (List Char) → List Char × List Tok
  | result, toks, [] => (result, toks)
  | result, toks, s :: rest =>
    if result.isEmpty then
      join_strings_tok_go js (result ++ s) (toks ++ [Tok.elemTok s]) rest
    else
      join_strings_tok_go js (result ++ js ++ s) (toks ++ [Tok.sepTok, Tok.elemTok s]) rest

/-- Instrumented `join_strings` (see `join_strings_tok_go`); the first
component is the returned string, the second the append log. -/
def join_strings_tok (ss : List (List Char)) (js : List Char) : List Char × List Tok :=
  join_strings_tok_go js [] [] ss

namespace detail

/-- Pack expansion used by `top1::detail::generate_sequence_impl`
(algorithm.hpp line 30) for a generator carrying an explicit side-effect
state `σ`: the elements of a braced init list are evaluated left to right,
so the state threads through the indices in list order. -/
def generate_sequence_expandT {σ α : Type} (gen : Nat → σ → α × σ) :
    List Nat → σ → List α × σ
  | [], s => ([], s)
  | i :: is, s =>
    let p := gen i s
    let q := generate_sequence_expandT gen is p.2
    (p.1 :: q.1, q.2)

/-- Embedding of `top1::detail::generate_sequence_impl` (algorithm.hpp lines
26-32) for a pure generator. The body constructs a `std::array` by class
template argument deduction from the braced init list of the expanded
invocation results `std::invoke(gen, ns)...`. For a nonempty index pack this
applies `gen` to each index in order; for the EMPTY pack the construction is
ill-formed — no deduction guide of `std::array` accepts zero arguments — so
that instantiation does not compile and has no behaviour, modelled as
`none`. -/
def generate_sequence_impl {α : Type} (gen : Nat → α) (ns : List Nat) :
    Option (List α) :=
  match ns with
  | [] => none
  | _ :: _ => some (ns.map gen)

/-- Embedding of the same construction for a generator with explicit
side-effect state (the expansion itself is `generate_sequence_expandT`); the
zero-length instantiation is equally ill-formed. -/
def generate_sequence_implT {σ α : Type} (gen : Nat → σ → α × σ) (ns : List Nat)
    (s : σ) : Option (List α × σ) :=
  match ns with
  | [] => none
  | _ :: _ => some (generate_sequence_expandT gen ns s)

end detail

/-- Embedding of `top1::generate_sequence` (algorithm.hpp lines 35-39):
`std::make_integer_sequence<int, n>` produces the indices `0, 1, ..., n-1`,
which are handed to the pack expansion of `generate_sequence_impl`; `n = 0`
hands it the empty pack, whose `std::array` construction is ill-formed
(`none`). -/
def generate_sequence {α : Type} (n : Nat) (gen : Nat → α) : Option (List α) :=
  detail.generate_sequence_impl gen (List.range n)

/-- State-instrumented `generate_sequence` (same source function, generator
with explicit state), used to observe the order of generator invocations. -/
def generate_sequenceT {σ α : Type} (n : Nat) (gen : Nat → σ → α × σ) (s : σ) :
    Option (List α × σ) :=
  detail.generate_sequence_implT gen (List.range n) s

/-- Embedding of the loop of `top1::for_each_n` (algorithm.hpp lines 49-52):
`for (Size i = 0; i < n; ++first, ++i) invoke(f, *first, i);` then
`return first`. The cursor `cur` is the suffix at the current iterator; the
trace lists the argument tuples `(*first, i)` passed to `f`; `none` models
the out-of-bounds dereference performed when the range is exhausted while
`i < n` still holds. -/
def for_each_n_go {α : Type} (n : Nat) : Nat → List α → Option (List (α × Nat) × List α)
  | i, [] => if i < n then none else some ([], [])
  | i, a :: rest =>
    if i < n then
      match for_each_n_go n (i + 1) rest with
      | none => none
      | some p => some ((a, i) :: p.1, p.2)
    else
      some ([], a :: rest)

/-- Embedding of `top1::for_each_n` (algorithm.hpp lines 42-53): run the loop
from index 0 at iterator `first`. -/
def for_each_n {α : Type} (first : List α) (n : Nat) :
    Option (List (α × Nat) × List α) :=
  for_each_n_go n 0 first

/-- Embedding of `top1::indexed_for` (algorithm.hpp lines 66-81). The local
counter `std::size_t i;` is declared WITHOUT an initializer, so the loop
starts from whatever value the uninitialized object happens to hold; that
indeterminate start value is the explicit parameter `i0`. The first
component lists the argument tuples `(element, i)` passed to `f`, the second
is the returned final value of `i`. -/
def indexed_for {α : Type} (i0 : Nat) (xs : List α) : List (α × Nat) × Nat :=
  match xs with
  | [] => ([], i0)
  | a :: rest =>
    let p := indexed_for (i0 + 1) rest
    ((a, i0) :: p.1, p.2)

/-- Embedding of the loop of `top1::indexed_for_n` (algorithm.hpp lines
101-104), which is textually identical to the loop of `for_each_n`:
`for (Size i = 0; i < n; ++first, ++i) invoke(f, *first, i);` then
`return first`. -/
def indexed_for_n_go {α : Type} (n : Nat) : Nat → List α → Option (List (α × Nat) × List α)
  | i, [] => if i < n then none else some ([], [])
  | i, a :: rest =>
    if i < n then
      match indexed_for_n_go n (i + 1) rest with
      | none => none
      | some p => some ((a, i) :: p.1, p.2)
    else
      some ([], a :: rest)

/-- Embedding of `top1::indexed_for_n` (algorithm.hpp lines 94-105). -/
def indexed_for_n {α : Type} (first : List α) (n : Nat) :
    Option (List (α × Nat) × List α) :=
  indexed_for_n_go n 0 first

/-- Argument tuples of the visitor invocations performed by `indexed_for_n`:
the body `std::invoke(std::forward<F>(f), *first, i)` (algorithm.hpp line
102) passes two arguments, the element and then the index. -/
def indexed_for_n_args {α : Type} (first : List α) (n : Nat) :
    Option (List (List (Arg α))) :=
  (indexed_for_n first n).map
    (fun p => p.1.map (fun q => [Arg.elemArg q.1, Arg.idxArg q.2]))

/-- Does an argument tuple entry mention the loop index? -/
def argMentionsIdx {α : Type} : Arg α → Bool
  | Arg.idxArg _ => true
  | Arg.elemArg _ => false

/-- Specification-side predicate, written from the wording of spec section
4.5 ("the visitor accepts only the element", "the index is never an argument
to f"): every recorded invocation passes element entries only and mentions
no index. Compared against `indexed_for_n_args`, which is taken from the
source body. -/
def callsPassOnlyElem {α : Type} (calls : List (List (Arg α))) : Bool :=
  calls.all (fun c => c.all (fun a => !argMentionsIdx a))

/-- Contents of the input sequence after `join_strings` returns: the loop
reads each element in turn (handing it to `result.append`) and contains no
statement that stores into the sequence, so each position is left holding
the element it held on entry. -/
def join_strings_memAfter (ss : List (List Char)) (js : List Char) :
    List (List Char) :=
  match ss with
  | [] => []
  | s :: rest => s :: join_strings_memAfter rest js

/-- Contents of the traversed range after `indexed_for` returns: the loop
body only reads `*it` and writes the local counter `i`, never the range. -/
def indexed_for_memAfter {α : Type} (xs : List α) : List α :=
  match xs with
  | [] => []
  | a :: rest => a :: indexed_for_memAfter rest

/-- Contents of the traversed suffix after the `for_each_n` loop: the body
only reads `*first` and writes the locals `first` and `i`, never an element
of the sequence. -/
def for_each_n_memAfter {α : Type} (n : Nat) : Nat → List α → List α
  | _, [] => []
  | i, a :: rest =>
    if i < n then a :: for_each_n_memAfter n (i + 1) rest else a :: rest

/-- Contents of the traversed suffix after the `indexed_for_n` loop (same
body as the `for_each_n` loop). -/
def indexed_for_n_memAfter {α : Type} (n : Nat) : Nat → List α → List α
  | _, [] => []
  | i, a :: rest =>
    if i < n then a :: indexed_for_n_memAfter n (i + 1) rest else a :: rest

/-- Step-counting variant of `join_strings`: one unit of fuel is consumed per
loop iteration; `none` means the fuel budget was exhausted before the
traversal finished. -/
def join_strings_fuel (js : List Char) :
    Nat → List Char → List (List Char) → Option (List Char)
  | _, result, [] => some result
  | 0, _, _ :: _ => none
  | fuel + 1, result, s :: rest =>
    join_strings_fuel js fuel ((if result.isEmpty then result else result ++ js) ++ s) rest

/-- Step-counting variant of the pack expansion of `generate_sequence`: one
unit of fuel per generator invocation. -/
def generate_sequence_fuel_go {α : Type} (gen : Nat → α) :
    Nat → List Nat → Option (List α)
  | _, [] => some []
  | 0, _ :: _ => none
  | fuel + 1, i :: is =>
    match generate_sequence_fuel_go gen fuel is with
    | none => none
    | some as => some (gen i :: as)

/-- Step-counting variant of `generate_sequence`: the ill-formed zero-length
instantiation is rejected outright (no fuel involved, it does not compile);
a nonempty index list runs the fueled pack expansion. -/
def generate_sequence_fuel {α : Type} (gen : Nat → α) (fuel : Nat)
    (ns : List Nat) : Option (List α) :=
  match ns with
  | [] => none
  | _ :: _ => generate_sequence_fuel_go gen fuel ns

/-- Step-counting variant of `indexed_for`: one unit of fuel per loop
iteration. -/
def indexed_for_fuel {α : Type} :
    Nat → Nat → List α → Option (List (α × Nat) × Nat)
  | _, i, [] => some ([], i)
  | 0, _, _ :: _ => none
  | fuel + 1, i, a :: rest =>
    match indexed_for_fuel fuel (i + 1) rest with
    | none => none
    | some p => some ((a, i) :: p.1, p.2)

/-- Step-counting variant of the `for_each_n` loop: one unit of fuel per
iteration; `none` covers both fuel exhaustion and the out-of-bounds case. -/
def for_each_n_fuel {α : Type} (n : Nat) : Nat → Nat → List α → Option (List (α × Nat) × List α)
  | _, i, [] => if i < n then none else some ([], [])
  | 0, i, a :: rest => if i < n then none else some ([], a :: rest)
  | fuel + 1, i, a :: rest =>
    if i < n then
      match for_each_n_fuel n fuel (i + 1) rest with
      | none => none
      | some p => some ((a, i) :: p.1, p.2)
    else
      some ([], a :: rest)

/-- Step-counting variant of the `indexed_for_n` loop. -/
def indexed_for_n_fuel {α : Type} (n : Nat) : Nat → Nat → List α → Option (List (α × Nat) × List α)
  | _, i, [] => if i < n then none else some ([], [])
  | 0, i, a :: rest => if i < n then none else some ([], a :: rest)
  | fuel + 1, i, a :: rest =>
    if i < n then
      match indexed_for_n_fuel n fuel (i + 1) rest with
      | none => none
      | some p => some ((a, i) :: p.1, p.2)
    else
      some ([], a :: rest)

/-! Helper lemmas. -/

/-- Once `result` is nonempty, every further step of the `join_strings` fold
appends the separator and then the element. -/
theorem join_strings_go_nonempty (js : List Char) (ss : List (List Char)) :
    ∀ acc : List Char, acc ≠ [] →
      ss.foldl (fun result s => (if result.isEmpty then result else result ++ js) ++ s) acc
        = acc ++ (ss.map (fun s => js ++ s)).flatten := by
  induction ss with
  | nil => intro acc _; simp
  | cons s rest ih =>
    intro acc h
    have hne : acc.isEmpty = false := by
      simp [List.isEmpty_iff, h]
    rw [List.foldl_cons]
    simp only [hne, Bool.false_eq_true, if_false]
    rw [ih (acc ++ js ++ s) (by simp [h])]
    simp

/-- Unfolding of `join_strings` on a sequence whose first element is
nonempty. -/
theorem join_strings_cons (s0 : List Char) (rest : List (List Char)) (js : List Char)
    (h : s0 ≠ []) :
    join_strings (s0 :: rest) js = s0 ++ (rest.map (fun s => js ++ s)).flatten := by
  unfold join_strings
  rw [List.foldl_cons]
  simp only [List.isEmpty_nil, if_true, List.nil_append]
  exact join_strings_go_nonempty js rest s0 h

/-- Counting the separator character in the separator-prefixed flattening of
separator-free pieces. -/
theorem count_flatten_sep (c : Char) (rest : List (List Char))
    (h : ∀ s ∈ rest, c ∉ s) :
    ((rest.map (fun s => [c] ++ s)).flatten).count c = rest.length := by
  induction rest with
  | nil => simp
  | cons s rs ih =>
    have h1 : c ∉ s := h s (by simp)
    have h2 : ∀ t ∈ rs, c ∉ t := fun t ht => h t (by simp [ht])
    rw [List.map_cons, List.flatten_cons, List.count_append, List.count_append,
      ih h2, List.count_eq_zero.mpr h1]
    simp [Nat.add_comm]

/-- Removing the separator character from the separator-prefixed flattening
of separator-free pieces recovers their plain concatenation. -/
theorem filter_flatten_sep (c : Char) (rest : List (List Char))
    (h : ∀ s ∈ rest, c ∉ s) :
    ((rest.map (fun s => [c] ++ s)).flatten).filter (fun x => x != c) = rest.flatten := by
  induction rest with
  | nil => simp
  | cons s rs ih =>
    have h1 : c ∉ s := h s (by simp)
    have h2 : ∀ t ∈ rs, c ∉ t := fun t ht => h t (by simp [ht])
    have hs : s.filter (fun x => x != c) = s := by
      rw [List.filter_eq_self]
      intro a ha
      have : a ≠ c := fun e => h1 (e ▸ ha)
      simpa using this
    rw [List.map_cons, List.flatten_cons, List.filter_append, List.filter_append,
      hs, ih h2, List.flatten_cons]
    simp

/-- Running the instrumented pack expansion with a logging generator maps the
index list and appends it, in order, to the log. -/
theorem generate_sequence_expandT_log {α : Type} (g : Nat → α) :
    ∀ (ns : List Nat) (s : List Nat),
      detail.generate_sequence_expandT (fun i t => (g i, t ++ [i])) ns s
        = (ns.map g, s ++ ns) := by
  intro ns
  induction ns with
  | nil => intro s; simp [detail.generate_sequence_expandT]
  | cons i is ih => intro s; simp [detail.generate_sequence_expandT, ih]

/-- On a nonempty index list the `std::array` deduction succeeds and
`generate_sequence_impl` packs the mapped values. -/
theorem generate_sequence_impl_cons {α : Type} (gen : Nat → α) (i : Nat)
    (is : List Nat) :
    detail.generate_sequence_impl gen (i :: is) = some ((i :: is).map gen) := rfl

/-- On a nonempty index list the instrumented construction packs the result
of the instrumented expansion. -/
theorem generate_sequence_implT_cons {σ α : Type} (gen : Nat → σ → α × σ)
    (i : Nat) (is : List Nat) (s : σ) :
    detail.generate_sequence_implT gen (i :: is) s
      = some (detail.generate_sequence_expandT gen (i :: is) s) := rfl

/-- Full characterization of the `for_each_n` loop when the remaining range
is long enough: it pairs the next `n - i` elements with the indices
`i, i+1, ...` and stops on the suffix `n - i` steps further on. -/
theorem for_each_n_go_spec {α : Type} (n : Nat) :
    ∀ (cur : List α) (i : Nat), i ≤ n → n - i ≤ cur.length →
      for_each_n_go n i cur
        = some ((cur.take (n - i)).zip (List.range' i (n - i)), cur.drop (n - i)) := by
  intro cur
  induction cur with
  | nil =>
    intro i h1 h2
    have hi : i = n := by simp at h2; omega
    subst hi
    simp [for_each_n_go]
  | cons a rest ih =>
    intro i h1 h2
    by_cases hin : i < n
    · obtain ⟨k, hk⟩ : ∃ k, n - i = k + 1 := ⟨n - i - 1, by omega⟩
      have hk' : n - (i + 1) = k := by omega
      rw [for_each_n_go]
      simp only [hin, if_true]
      rw [ih (i + 1) (by omega) (by simp at h2 ⊢; omega)]
      simp [hk, hk', List.range'_succ]
    · have h0 : n - i = 0 := by omega
      simp [for_each_n_go, hin, h0]

/-- The two loops of `for_each_n` and `indexed_for_n` are the same
function. -/
theorem for_each_n_go_eq_indexed {α : Type} (n : Nat) :
    ∀ (cur : List α) (i : Nat), for_each_n_go n i cur = indexed_for_n_go n i cur := by
  intro cur
  induction cur with
  | nil => intro i; rfl
  | cons a rest ih =>
    intro i
    rw [for_each_n_go, indexed_for_n_go, ih (i + 1)]

/-- Invariant of the instrumented `join_strings` loop: a separator is only
ever appended right before an element while `result` is already nonempty, so
a nonempty append log begins and ends with an element token. -/
theorem join_strings_tok_go_inv (js : List Char) :
    ∀ (ss : List (List Char)) (res : List Char) (toks : List Tok),
      (toks = [] → res = []) →
      (toks ≠ [] → (∃ s, toks.head? = some (Tok.elemTok s))
        ∧ (∃ s, toks.getLast? = some (Tok.elemTok s))) →
      ((join_strings_tok_go js res toks ss).2 ≠ []
        → (∃ s, (join_strings_tok_go js res toks ss).2.head? = some (Tok.elemTok s))
          ∧ (∃ s, (join_strings_tok_go js res toks ss).2.getLast? = some (Tok.elemTok s))) := by
  intro ss
  induction ss with
  | nil => intro res toks _ h2; exact h2
  | cons s rest ih =>
    intro res toks h1 h2
    rw [join_strings_tok_go]
    by_cases hres : res.isEmpty
    · simp only [hres, if_true]
      apply ih
      · intro habs; simp at habs
      · intro _
        constructor
        · cases htoks : toks with
          | nil => exact ⟨s, by simp⟩
          | cons t ts =>
            obtain ⟨u, hu⟩ := (h2 (by simp [htoks])).1
            rw [htoks] at hu
            simp at hu
            exact ⟨u, by simp [hu]⟩
        · exact ⟨s, by simp⟩
    · simp only [hres, Bool.false_eq_true, if_false]
      have htoksne : toks ≠ [] := by
        intro habs
        have := h1 habs
        rw [this] at hres
        simp at hres
      apply ih
      · intro habs; simp at habs
      · intro _
        constructor
        · cases htoks : toks with
          | nil => exact absurd htoks htoksne
          | cons t ts =>
            obtain ⟨u, hu⟩ := (h2 htoksne).1
            rw [htoks] at hu
            simp at hu
            exact ⟨u, by simp [hu]⟩
        · refine ⟨s, ?_⟩
          have : toks ++ [Tok.sepTok, Tok.elemTok s]
              = (toks ++ [Tok.sepTok]) ++ [Tok.elemTok s] := by simp
          rw [this, List.getLast?_concat]

/-- The sequence fed to `join_strings` is returned element for element. -/
theorem join_strings_memAfter_eq (ss : List (List Char)) (js : List Char) :
    join_strings_memAfter ss js = ss := by
  induction ss with
  | nil => rfl
  | cons s rest ih => simp [join_strings_memAfter, ih]

/-- The range traversed by `indexed_for` is returned element for element. -/
theorem indexed_for_memAfter_eq {α : Type} (xs : List α) :
    indexed_for_memAfter xs = xs := by
  induction xs with
  | nil => rfl
  | cons a rest ih => simp [indexed_for_memAfter, ih]

/-- The suffix traversed by the `for_each_n` loop is returned element for
element. -/
theorem for_each_n_memAfter_eq {α : Type} (n : Nat) :
    ∀ (cur : List α) (i : Nat), for_each_n_memAfter n i cur = cur := by
  intro cur
  induction cur with
  | nil => intro i; rfl
  | cons a rest ih =>
    intro i
    rw [for_each_n_memAfter]
    by_cases hin : i < n <;> simp [hin, ih (i + 1)]

/-- The suffix traversed by the `indexed_for_n` loop is returned element for
element. -/
theorem indexed_for_n_memAfter_eq {α : Type} (n : Nat) :
    ∀ (cur : List α) (i : Nat), indexed_for_n_memAfter n i cur = cur := by
  intro cur
  induction cur with
  | nil => intro i; rfl
  | cons a rest ih =>
    intro i
    rw [indexed_for_n_memAfter]
    by_cases hin : i < n <;> simp [hin, ih (i + 1)]

/-- A fuel budget of one unit per element lets the step-counting
`join_strings` finish with the fold's value. -/
theorem join_strings_fuel_spec (js : List Char) :
    ∀ (ss : List (List Char)) (fuel : Nat) (acc : List Char), ss.length ≤ fuel →
      join_strings_fuel js fuel acc ss
        = some (ss.foldl
            (fun result s => (if result.isEmpty then result else result ++ js) ++ s) acc) := by
  intro ss
  induction ss with
  | nil => intro fuel acc _; cases fuel <;> rfl
  | cons s rest ih =>
    intro fuel acc h
    cases fuel with
    | zero => simp at h
    | succ f =>
      rw [join_strings_fuel, List.foldl_cons]
      exact ih f _ (by simp at h; omega)

/-- A fuel budget of one unit per index lets the step-counting pack
expansion finish with the mapped values. -/
theorem generate_sequence_fuel_go_spec {α : Type} (g : Nat → α) :
    ∀ (ns : List Nat) (fuel : Nat), ns.length ≤ fuel →
      generate_sequence_fuel_go g fuel ns = some (ns.map g) := by
  intro ns
  induction ns with
  | nil => intro fuel _; cases fuel <;> rfl
  | cons i is ih =>
    intro fuel h
    cases fuel with
    | zero => simp at h
    | succ f =>
      rw [generate_sequence_fuel_go, ih f (by simp at h; omega)]
      rfl

/-- With one unit of fuel per index the step-counting `generate_sequence`
agrees with the unbounded embedding (both reject the ill-formed zero-length
instantiation). -/
theorem generate_sequence_fuel_eq {α : Type} (g : Nat → α) (n : Nat) :
    generate_sequence_fuel g n (List.range n) = generate_sequence n g := by
  have hlen : (List.range n).length ≤ n := by simp
  unfold generate_sequence_fuel generate_sequence detail.generate_sequence_impl
  cases hr : List.range n with
  | nil => rfl
  | cons i is =>
    rw [hr] at hlen
    exact generate_sequence_fuel_go_spec g (i :: is) n hlen

/-- A fuel budget of one unit per element lets the step-counting
`indexed_for` finish with the value of the unbounded embedding. -/
theorem indexed_for_fuel_spec {α : Type} :
    ∀ (xs : List α) (fuel i0 : Nat), xs.length ≤ fuel →
      indexed_for_fuel fuel i0 xs = some (indexed_for i0 xs) := by
  intro xs
  induction xs with
  | nil => intro fuel i0 _; cases fuel <;> rfl
  | cons a rest ih =>
    intro fuel i0 h
    cases fuel with
    | zero => simp at h
    | succ f =>
      rw [indexed_for_fuel, ih f (i0 + 1) (by simp at h; omega)]
      rfl

/-- A fuel budget of `n - i` iterations lets the step-counting `for_each_n`
loop agree with the unbounded loop. -/
theorem for_each_n_fuel_spec {α : Type} (n : Nat) :
    ∀ (cur : List α) (fuel i : Nat), n - i ≤ fuel →
      for_each_n_fuel n fuel i cur = for_each_n_go n i cur := by
  intro cur
  induction cur with
  | nil => intro fuel i _; cases fuel <;> rfl
  | cons a rest ih =>
    intro fuel i h
    by_cases hin : i < n
    · cases fuel with
      | zero => omega
      | succ f =>
        rw [for_each_n_fuel, for_each_n_go, ih f (i + 1) (by omega)]
    · cases fuel with
      | zero => simp [for_each_n_fuel, for_each_n_go, hin]
      | succ f => simp [for_each_n_fuel, for_each_n_go, hin]

/-- A fuel budget of `n - i` iterations lets the step-counting
`indexed_for_n` loop agree with the unbounded loop. -/
theorem indexed_for_n_fuel_spec {α : Type} (n : Nat) :
    ∀ (cur : List α) (fuel i : Nat), n - i ≤ fuel →
      indexed_for_n_fuel n fuel i cur = indexed_for_n_go n i cur := by
  intro cur
  induction cur with
  | nil => intro fuel i _; cases fuel <;> rfl
  | cons a rest ih =>
    intro fuel i h
    by_cases hin : i < n
    · cases fuel with
      | zero => omega
      | succ f =>
        rw [indexed_for_n_fuel, indexed_for_n_go, ih f (i + 1) (by omega)]
    · cases fuel with
      | zero => simp [indexed_for_n_fuel, indexed_for_n_go, hin]
      | succ f => simp [indexed_for_n_fuel, indexed_for_n_go, hin]

/-! Claim theorems. -/

/-- Claim C1 (code bug, evaluation at a failing input): the counter of
`indexed_for` is the uninitialized local `std::size_t i;` (algorithm.hpp line
74), so the loop starts from whatever indeterminate value `i0` that object
holds. On the one-element range holding 10 with `i0 = 1`, the visitor is
invoked with index 1 — not 0 — and the function returns 2 — not the range
length 1 — contradicting both the claim and the function's own documentation
("an incrementing value, starting at zero", "@return The number of
iterations performed"). The documented behaviour is recovered exactly when
the indeterminate value happens to be 0. -/
theorem indexed_for_uninit_eval :
    indexed_for 1 ([10] : List Nat) = ([(10, 1)], 2)
  ∧ ((indexed_for 1 ([10] : List Nat)
      == (([(10, 0)], 1) : List (Nat × Nat) × Nat)) = false)
  ∧ indexed_for 0 ([10] : List Nat) = ([(10, 0)], 1) := by
  refine ⟨rfl, rfl, rfl⟩

/-- Claim C2 (counterexample): on the sequence of two empty strings with
separator "-", `join_strings` returns the empty string — the
`!result.empty()` test never fires while only empty elements have been
appended — so the separator occurs 0 times in the result although the claim
demands max(0, |S| - 1) = 1 occurrences. -/
theorem join_strings_count_cex :
    join_strings ([[], []] : List (List Char)) ['-'] = []
  ∧ (join_strings ([[], []] : List (List Char)) ['-']).count '-' = 0
  ∧ ([[], []] : List (List Char)).length - 1 = 1
  ∧ (((join_strings ([[], []] : List (List Char)) ['-']).count '-'
      == ([[], []] : List (List Char)).length - 1) = false) := by
  refine ⟨rfl, rfl, rfl, rfl⟩

/-- Claim C2 (amended): for a single-character separator `c` and a sequence
`S` of nonempty strings none of which contains `c`, `join_strings` produces
a string in which `c` occurs exactly max(0, |S| - 1) times, and removing
those occurrences of `c` and concatenating the pieces yields the
concatenation of the elements of S in order. The amendment restricts the
claim to nonempty elements (the code's `!result.empty()` test drops
separators while every element seen so far is empty) and to one-character
separators absent from the elements (otherwise occurrences of the separator
can come from the elements themselves, or straddle an element/separator
boundary, e.g. joining "a","a" with separator "aa"). -/
theorem join_strings_count_amended (c : Char) (S : List (List Char))
    (h : ∀ s ∈ S, s ≠ [] ∧ c ∉ s) :
    (join_strings S [c]).count c = S.length - 1
  ∧ (join_strings S [c]).filter (fun x => x != c) = S.flatten := by
  cases S with
  | nil => exact ⟨rfl, rfl⟩
  | cons s0 rest =>
    have h0 := h s0 (by simp)
    have hrest : ∀ s ∈ rest, c ∉ s := fun s hs => (h s (by simp [hs])).2
    rw [join_strings_cons s0 rest [c] h0.1]
    constructor
    · rw [List.count_append, count_flatten_sep c rest hrest,
        List.count_eq_zero.mpr h0.2]
      simp
    · rw [List.filter_append, filter_flatten_sep c rest hrest]
      have hs0 : s0.filter (fun x => x != c) = s0 := by
        rw [List.filter_eq_self]
        intro a ha
        have : a ≠ c := fun e => h0.2 (e ▸ ha)
        simpa using this
      simp [hs0]

/-- Witness for the amended C2, at S = ["a", "b", "c"], separator '-'. -/
theorem join_strings_count_amended_witness :
    (join_strings [['a'], ['b'], ['c']] ['-']).count '-'
        = ([['a'], ['b'], ['c']] : List (List Char)).length - 1
  ∧ (join_strings [['a'], ['b'], ['c']] ['-']).filter (fun x => x != '-')
        = ([['a'], ['b'], ['c']] : List (List Char)).flatten :=
  join_strings_count_amended '-' [['a'], ['b'], ['c']] (by decide)

/-- Claim C3 (counterexample): over the one-element range holding 10 with
n = 1, the single visitor invocation of `indexed_for_n` receives the
argument tuple (element 10, index 0): the body
`std::invoke(std::forward<F>(f), *first, i)` passes the index too, so the
recorded calls do not pass only the element. -/
theorem indexed_for_n_args_cex :
    indexed_for_n_args ([10] : List Nat) 1 = some [[Arg.elemArg 10, Arg.idxArg 0]]
  ∧ callsPassOnlyElem [[Arg.elemArg (10 : Nat), Arg.idxArg 0]] = false := by
  refine ⟨rfl, rfl⟩

/-- Claim C3 (amended): the count `n` still drives the iteration length, but
each of the n invocations of the `indexed_for_n` visitor passes the current
element AND the current index (in that order). Only the `enable_if`
constraint of `indexed_for_n` speaks of an element-only visitor; the loop
body it guards invokes `f` with both arguments. -/
theorem indexed_for_n_args_amended (α : Type) (xs : List α) (n : Nat)
    (h : n ≤ xs.length) :
    indexed_for_n_args xs n
      = some (((xs.take n).zip (List.range n)).map
          (fun q => [Arg.elemArg q.1, Arg.idxArg q.2])) := by
  unfold indexed_for_n_args indexed_for_n
  rw [← for_each_n_go_eq_indexed, for_each_n_go_spec n xs 0 (Nat.zero_le n) (by simpa using h)]
  simp [List.range_eq_range']

/-- Witness for the amended C3, at the range holding 10 with n = 1. -/
theorem indexed_for_n_args_amended_witness :
    indexed_for_n_args ([10] : List Nat) 1
      = some (((([10] : List Nat).take 1).zip (List.range 1)).map
          (fun q => [Arg.elemArg q.1, Arg.idxArg q.2])) :=
  indexed_for_n_args_amended Nat [10] 1 (by decide)

/-- Claim C4 (counterexample): the claim quantifies over every N >= 0, but at
N = 0 `generate_sequence` has no behaviour at all: the empty pack expansion
leaves the braced `std::array` construction of algorithm.hpp line 30 with no
viable class template argument deduction, so the instantiation is ill-formed
and no zero-element container is ever returned. -/
theorem generate_sequence_zero_cex :
    generate_sequence 0 (fun i : Nat => i) = none
  ∧ (generate_sequence 0 (fun i : Nat => i)).isSome = false := by
  refine ⟨rfl, rfl⟩

/-- Claim C4 (amended): for every N >= 1 and generator g,
`generate_sequence n g` returns a container holding exactly the values
`g 0, ..., g (n-1)` — so it has exactly n elements and its element at every
position i < n equals `g i` — and instrumenting the generator with an
argument log shows it is invoked with exactly the indices `0, 1, ..., n-1`,
a list that is strictly ascending (`Chain' (· < ·)`) and contains each index
below n exactly once, while producing the same elements as the pure run.
The amendment excludes N = 0, whose instantiation is ill-formed
(`generate_sequence_zero_cex`). -/
theorem generate_sequence_spec_thm (α : Type) (n : Nat) (g : Nat → α)
    (h : 1 ≤ n) :
    generate_sequence n g = some ((List.range n).map g)
  ∧ ((List.range n).map g).length = n
  ∧ (∀ i, i < n → ((List.range n).map g)[i]? = some (g i))
  ∧ generate_sequenceT n (fun i t => (g i, t ++ [i])) ([] : List Nat)
      = some ((List.range n).map g, List.range n)
  ∧ List.Chain' (· < ·) (List.range n)
  ∧ (∀ i, i < n → (List.range n).count i = 1) := by
  obtain ⟨i0, is0, hr⟩ : ∃ i0 is0, List.range n = i0 :: is0 := by
    cases hr : List.range n with
    | nil =>
      have := List.length_range n
      rw [hr] at this
      simp at this
      omega
    | cons i is => exact ⟨i, is, rfl⟩
  refine ⟨?_, ?_, ?_, ?_, ?_, ?_⟩
  · unfold generate_sequence
    rw [hr, generate_sequence_impl_cons, ← hr]
  · simp
  · intro i hi
    simp [List.getElem?_range hi]
  · unfold generate_sequenceT
    rw [hr, generate_sequence_implT_cons, generate_sequence_expandT_log, ← hr]
    simp
  · exact (List.pairwise_lt_range n).chain'
  · intro i hi
    exact List.count_eq_one_of_mem (List.nodup_range n) (List.mem_range.mpr hi)

/-- Witness for the amended C4, at n = 3 and the generator i + 1. -/
theorem generate_sequence_spec_witness :
    generate_sequence 3 (fun i => i + 1) = some ((List.range 3).map (fun i => i + 1))
  ∧ ((List.range 3).map (fun i => i + 1)).length = 3
  ∧ ((List.range 3).map (fun i => i + 1))[1]? = some 2
  ∧ generate_sequenceT 3 (fun i t => (i + 1, t ++ [i])) ([] : List Nat)
      = some ((List.range 3).map (fun i => i + 1), List.range 3)
  ∧ List.Chain' (· < ·) (List.range 3)
  ∧ (List.range 3).count 1 = 1 := by
  obtain ⟨h1, h2, h3, h4, h5, h6⟩ :=
    generate_sequence_spec_thm Nat 3 (fun i => i + 1) (by decide)
  exact ⟨h1, h2, h3 1 (by decide), h4, h5, h6 1 (by decide)⟩

/-- Claim C5: for n not exceeding the remaining length, `for_each_n` and
`indexed_for_n` invoke the visitor exactly n times — the recorded trace pairs
the first n elements with the indices 0..n-1 and has length n — and return
the position advanced exactly n steps from `first`, i.e. the suffix
`xs.drop n`; for n = 0 both perform zero invocations and return `first`
unchanged. -/
theorem for_each_n_count_spec (α : Type) (xs : List α) (n : Nat)
    (h : n ≤ xs.length) :
    for_each_n xs n = some ((xs.take n).zip (List.range n), xs.drop n)
  ∧ indexed_for_n xs n = some ((xs.take n).zip (List.range n), xs.drop n)
  ∧ ((xs.take n).zip (List.range n)).length = n
  ∧ for_each_n xs 0 = some ([], xs)
  ∧ indexed_for_n xs 0 = some ([], xs) := by
  have hgo := for_each_n_go_spec n xs 0 (Nat.zero_le n) (by simpa using h)
  simp only [Nat.sub_zero] at hgo
  have h1 : for_each_n xs n = some ((xs.take n).zip (List.range n), xs.drop n) := by
    unfold for_each_n
    rw [hgo, List.range_eq_range']
  have h2 : indexed_for_n xs n = some ((xs.take n).zip (List.range n), xs.drop n) := by
    unfold indexed_for_n
    rw [← for_each_n_go_eq_indexed, hgo, List.range_eq_range']
  refine ⟨h1, h2, ?_, ?_, ?_⟩
  · simp [List.length_zip, List.length_take]
    omega
  · unfold for_each_n
    cases xs <;> rfl
  · unfold indexed_for_n
    cases xs <;> rfl

/-- Witness for C5, over [10, 20, 30] with n = 2. -/
theorem for_each_n_count_spec_witness :
    for_each_n ([10, 20, 30] : List Nat) 2
        = some ((([10, 20, 30] : List Nat).take 2).zip (List.range 2),
            ([10, 20, 30] : List Nat).drop 2)
  ∧ indexed_for_n ([10, 20, 30] : List Nat) 2
        = some ((([10, 20, 30] : List Nat).take 2).zip (List.range 2),
            ([10, 20, 30] : List Nat).drop 2)
  ∧ ((([10, 20, 30] : List Nat).take 2).zip (List.range 2)).length = 2
  ∧ for_each_n ([10, 20, 30] : List Nat) 0 = some ([], [10, 20, 30])
  ∧ indexed_for_n ([10, 20, 30] : List Nat) 0 = some ([], [10, 20, 30]) :=
  for_each_n_count_spec Nat [10, 20, 30] 2 (by decide)

/-- Claim C6 (code bug, evaluation at the failing input): the promised
`generate_sequence 0 g = empty container, g never invoked` is not a
behaviour the program has: at N = 0 the empty pack makes the braced
`std::array` construction of algorithm.hpp line 30 fail class template
argument deduction, so the instantiation is ill-formed — there is no value
at all (`none`), for every generator and every side-effect state. The other
half of the claim does hold: `generate_sequence 3` of the squaring generator
is [0, 1, 4]. -/
theorem generate_sequence_examples :
    (∀ (α : Type) (g : Nat → α), generate_sequence 0 g = none)
  ∧ (∀ (σ α : Type) (gen : Nat → σ → α × σ) (s : σ),
      generate_sequenceT 0 gen s = none)
  ∧ generate_sequence 3 (fun i => i * i) = some [0, 1, 4] := by
  refine ⟨fun α g => rfl, fun σ α gen s => rfl, rfl⟩

/-- Claim C7: `join_strings` of the empty sequence is the empty string for
every separator; a one-element sequence comes back unchanged with no
separator emitted; joining "a","b","c" with "-" gives "a-b-c"; and for no
input does the algorithm emit a separator before the first or after the
last append: the instrumented append log never begins and never ends with a
separator token. -/
theorem join_strings_edges :
    (∀ js : List Char, join_strings [] js = [])
  ∧ (∀ s js : List Char, join_strings [s] js = s)
  ∧ join_strings [['a'], ['b'], ['c']] ['-'] = ['a', '-', 'b', '-', 'c']
  ∧ (∀ (ss : List (List Char)) (js : List Char),
      ((join_strings_tok ss js).2.head? = none
        ∨ ∃ s, (join_strings_tok ss js).2.head? = some (Tok.elemTok s))
      ∧ ((join_strings_tok ss js).2.getLast? = none
        ∨ ∃ s, (join_strings_tok ss js).2.getLast? = some (Tok.elemTok s))) := by
  refine ⟨fun js => rfl, fun s js => rfl, rfl, ?_⟩
  intro ss js
  unfold join_strings_tok
  have hinv := join_strings_tok_go_inv js ss [] []
    (fun _ => rfl) (fun hne => absurd rfl hne)
  by_cases hnil : (join_strings_tok_go js [] [] ss).2 = []
  · rw [hnil]
    exact ⟨Or.inl rfl, Or.inl rfl⟩
  · exact ⟨Or.inr (hinv hnil).1, Or.inr (hinv hnil).2⟩

/-- Witness for C7, at the one-element sequence ["a"] with separator "-". -/
theorem join_strings_edges_witness :
    join_strings [] ['-'] = [] ∧ join_strings [['a']] ['-'] = ['a'] :=
  ⟨join_strings_edges.1 ['-'], join_strings_edges.2.1 ['a'] ['-']⟩

/-- Claim C8: none of the operations mutates its input sequence: the
post-state of the traversed sequence equals its pre-state for
`join_strings`, `indexed_for`, `for_each_n` and `indexed_for_n`
(`generate_sequence` consumes no input sequence at all, so the claim is
vacuous for it). -/
theorem no_mutation_spec (α : Type) (js : List Char) (ss : List (List Char))
    (xs : List α) (n : Nat) :
    join_strings_memAfter ss js = ss
  ∧ indexed_for_memAfter xs = xs
  ∧ for_each_n_memAfter n 0 xs = xs
  ∧ indexed_for_n_memAfter n 0 xs = xs :=
  ⟨join_strings_memAfter_eq ss js, indexed_for_memAfter_eq xs,
    for_each_n_memAfter_eq n xs 0, indexed_for_n_memAfter_eq n xs 0⟩

/-- Witness for C8, at concrete inputs. -/
theorem no_mutation_spec_witness :
    join_strings_memAfter [['a'], []] ['-'] = [['a'], []]
  ∧ indexed_for_memAfter ([7, 8] : List Nat) = [7, 8]
  ∧ for_each_n_memAfter 1 0 ([7, 8] : List Nat) = [7, 8]
  ∧ indexed_for_n_memAfter 1 0 ([7, 8] : List Nat) = [7, 8] :=
  no_mutation_spec Nat ['-'] [['a'], []] [7, 8] 1

/-- Claim C9: every operation runs to completion within a number of loop
steps bounded by its input size: a fuel budget of one unit per element (or
per index for `generate_sequence`, per requested iteration for the n-driven
loops) already lets the step-counting variants finish and return the value
of the unbounded embedding. -/
theorem termination_fuel_spec (α : Type) (g : Nat → α) (js : List Char)
    (ss : List (List Char)) (xs : List α) (n i0 : Nat) :
    join_strings_fuel js ss.length [] ss = some (join_strings ss js)
  ∧ generate_sequence_fuel g n (List.range n) = generate_sequence n g
  ∧ indexed_for_fuel xs.length i0 xs = some (indexed_for i0 xs)
  ∧ for_each_n_fuel n n 0 xs = for_each_n xs n
  ∧ indexed_for_n_fuel n n 0 xs = indexed_for_n xs n := by
  refine ⟨?_, ?_, ?_, ?_, ?_⟩
  · exact join_strings_fuel_spec js ss ss.length [] (Nat.le_refl _)
  · exact generate_sequence_fuel_eq g n
  · exact indexed_for_fuel_spec xs xs.length i0 (Nat.le_refl _)
  · exact for_each_n_fuel_spec n xs n 0 (by omega)
  · exact indexed_for_n_fuel_spec n xs n 0 (by omega)

/-- Witness for C9, at concrete inputs. -/
theorem termination_fuel_spec_witness :
    join_strings_fuel ['-'] ([['a'], ['b']] : List (List Char)).length [] [['a'], ['b']]
        = some (join_strings [['a'], ['b']] ['-'])
  ∧ generate_sequence_fuel (fun i => i * i) 1 (List.range 1)
        = generate_sequence 1 (fun i => i * i)
  ∧ indexed_for_fuel ([7, 8] : List Nat).length 0 [7, 8] = some (indexed_for 0 [7, 8])
  ∧ for_each_n_fuel 1 1 0 ([7, 8] : List Nat) = for_each_n [7, 8] 1
  ∧ indexed_for_n_fuel 1 1 0 ([7, 8] : List Nat) = indexed_for_n [7, 8] 1 :=
  termination_fuel_spec Nat (fun i => i * i) ['-'] [['a'], ['b']] [7, 8] 1 0

/-- Claim C10: `for_each_n` and `indexed_for_n` are behaviourally identical:
for every start position, count and input they record the same visitor
invocations with the same arguments and return the same final position. -/
theorem for_each_n_eq_indexed_for_n (α : Type) (xs : List α) (n : Nat) :
    for_each_n xs n = indexed_for_n xs n :=
  for_each_n_go_eq_indexed n xs 0

/-- Witness for C10, over [10, 20] with n = 1. -/
theorem for_each_n_eq_indexed_for_n_witness :
    for_each_n ([10, 20] : List Nat) 1 = indexed_for_n ([10, 20] : List Nat) 1 :=
  for_each_n_eq_indexed_for_n Nat [10, 20] 1

end top1
